import Mathlib

/-!
Verification of `open_flamingo/train/train_utils.py`.

The file embeds the four Python declarations of the module — `get_cast_dtype`,
`get_autocast`, `train_one_epoch` and `get_checkpoint` — as executable Lean
definitions and proves the specified properties about them.

Conventions of the embedding:
* token ids coming out of a tokenizer are natural numbers; a label tensor row
  is a `List Int` so that the ignore sentinel `-100` can be stored in it;
* a 2-D tensor is a list of rows; the Python tensor operations used by the
  label construction (`labels[labels == v] = -100`, `labels[:, 0] = -100`,
  the per-row while-loop) all act row-wise, so they are embedded as per-row
  functions mapped over the batch;
* the epoch driver's externally visible effects (batch consumption, forward
  passes, optimizer / scheduler / zero-grad calls) are recorded in a trace
  structure; the two Python `assert` statements become an `Except.error`
  result carrying the assertion message, returned before any trace event
  can be produced.
-/

/-- Embedding of the two `torch` floating point storage types that
`get_cast_dtype` can select. -/
inductive TorchDtype where
  | bfloat16
  | float16
deriving DecidableEq, Repr

/-- Embedding of `get_cast_dtype` from `train_utils.py`: `cast_dtype = None`,
then `"bf16" -> torch.bfloat16`, `"fp16" -> torch.float16`. -/
def get_cast_dtype (precision : String) : Option TorchDtype :=
  if precision = "bf16" then some TorchDtype.bfloat16
  else if precision = "fp16" then some TorchDtype.float16
  else none

/-- The three context values `get_autocast` can return: the cuda amp
autocast context, the amp context pinned to bfloat16, and
`contextlib.suppress` (with no argument, a do-nothing context). -/
inductive AutocastCtx where
  | cudaAmp
  | cudaAmpBfloat16
  | suppress
deriving DecidableEq, Repr

/-- Embedding of `get_autocast` from `train_utils.py`. -/
def get_autocast (precision : String) : AutocastCtx :=
  if precision = "amp" then AutocastCtx.cudaAmp
  else if precision = "amp_bfloat16" ∨ precision = "amp_bf16" then AutocastCtx.cudaAmpBfloat16
  else AutocastCtx.suppress

/-- Ambient mixed-precision state seen by code running under one of the
contexts returned by `get_autocast`. -/
structure AmpState where
  autocastEnabled : Bool
  autocastDtype : Option TorchDtype
deriving DecidableEq, Repr

/-- Modelled from the spec: the entry effect of each context returned by
`get_autocast` on the ambient mixed-precision state.  The implementations
live outside this repository (`torch.cuda.amp.autocast` and
`contextlib.suppress`); per the spec, the amp contexts activate mixed
precision while `suppress` used as a context manager is a no-op on entry. -/
def ctx_enter : AutocastCtx → AmpState → AmpState
  | AutocastCtx.cudaAmp, s => { s with autocastEnabled := true }
  | AutocastCtx.cudaAmpBfloat16, _ =>
      { autocastEnabled := true, autocastDtype := some TorchDtype.bfloat16 }
  | AutocastCtx.suppress, s => s

/-- Modelled from the spec: the exit effect of each context returned by
`get_autocast`; the amp contexts deactivate mixed precision on exit while
`contextlib.suppress` is a no-op on exit. -/
def ctx_exit : AutocastCtx → AmpState → AmpState
  | AutocastCtx.cudaAmp, s => { s with autocastEnabled := false }
  | AutocastCtx.cudaAmpBfloat16, s =>
      { s with autocastEnabled := false, autocastDtype := none }
  | AutocastCtx.suppress, s => s

/-- `labels = input_ids.clone()`: a row of token ids widened to the signed
label domain. -/
def clone_ids (row : List Nat) : List Int :=
  row.map (fun (a : Nat) => (a : Int))

/-- `labels[labels == v] = -100`, restricted to one row: every entry equal
to `v` is overwritten with the ignore sentinel. -/
def mask_value (v : Int) (labels : List Int) : List Int :=
  labels.map (fun x => if x = v then -100 else x)

/-- `labels[:, 0] = -100`, restricted to one row: the first entry (when the
row is nonempty) is overwritten with the ignore sentinel. -/
def mask_first : List Int → List Int
  | [] => []
  | _ :: xs => -100 :: xs

/-- The per-row while-loop of the pile branch of `train_one_epoch`:
starting from the left, entries are overwritten with `-100` until the first
entry equal to `media` (which is left in place, together with everything
after it). -/
def pre_media_scan (media : Int) : List Int → List Int
  | [] => []
  | x :: xs => if x = media then x :: xs else -100 :: pre_media_scan media xs

/-- The state of one label row of the laion (source A) branch after
`labels[labels == pad_token_id] = -100` and `labels[:, 0] = -100`; the pile
branch runs its scan on exactly this state. -/
def pre_scan_labels (pad : Nat) (row : List Nat) : List Int :=
  mask_first (mask_value (pad : Int) (clone_ids row))

/-- Label construction of the laion (source A) branch of `train_one_epoch`
for one row: clone, mask padding, mask position 0, mask media tokens. -/
def laion_labels (pad media : Nat) (row : List Nat) : List Int :=
  mask_value (media : Int) (pre_scan_labels pad row)

/-- Label construction of the pile (source B) branch of `train_one_epoch`
for one row: clone, mask padding, mask position 0, run the pre-media scan,
mask media tokens. -/
def pile_labels (pad media : Nat) (row : List Nat) : List Int :=
  mask_value (media : Int) (pre_media_scan (media : Int) (pre_scan_labels pad row))

/-- Laion label construction applied to a whole batch. -/
def laion_labels_batch (pad media : Nat) (batch : List (List Nat)) : List (List Int) :=
  batch.map (laion_labels pad media)

/-- Pile label construction applied to a whole batch. -/
def pile_labels_batch (pad media : Nat) (batch : List (List Nat)) : List (List Int) :=
  batch.map (pile_labels pad media)

/-- Index of the first occurrence of `v` in a row of token ids; equals the
row length when `v` does not occur. -/
def first_occ (v : Nat) : List Nat → Nat
  | [] => 0
  | a :: xs => if a = v then 0 else first_occ v xs + 1

/-- Index of the first occurrence of `v` in a label row; equals the row
length when `v` does not occur.  This is where the pile branch's while-loop
stops. -/
def first_occ_int (v : Int) : List Int → Nat
  | [] => 0
  | a :: xs => if a = v then 0 else first_occ_int v xs + 1

/-- Externally visible events of one call to `train_one_epoch`, counted:
batches pulled from each loader, model forward passes, and
`optimizer.step` / `lr_scheduler.step` / `optimizer.zero_grad` calls. -/
structure EpochTrace where
  laion_batches_consumed : Nat
  pile_batches_consumed : Nat
  forward_passes : Nat
  optimizer_steps : Nat
  scheduler_steps : Nat
  zero_grad_calls : Nat
deriving DecidableEq, Repr

/-- The flush condition of `train_one_epoch`:
`(num_steps + 1) % gradient_accumulation_steps == 0` or
`num_steps == num_batches_per_epoch - 1`. -/
def flush_step (num_batches grad_accum s : Nat) : Bool :=
  ((s + 1) % grad_accum == 0) || (s == num_batches - 1)

/-- One iteration of the training loop, as trace events: one batch is
pulled from each loader, two forward passes run (laion and pile), and on a
flush step the optimizer steps, the scheduler steps and the gradients are
cleared. -/
def epoch_step (num_batches grad_accum : Nat) (t : EpochTrace) (s : Nat) : EpochTrace :=
  let t1 : EpochTrace :=
    { t with
      laion_batches_consumed := t.laion_batches_consumed + 1
      pile_batches_consumed := t.pile_batches_consumed + 1
      forward_passes := t.forward_passes + 2 }
  if flush_step num_batches grad_accum s then
    { t1 with
      optimizer_steps := t1.optimizer_steps + 1
      scheduler_steps := t1.scheduler_steps + 1
      zero_grad_calls := t1.zero_grad_calls + 1 }
  else t1

/-- The training loop of `train_one_epoch`: steps `0, 1, ..., n-1` over the
zipped loaders, starting from the empty trace. -/
def run_epoch_loop (num_batches grad_accum : Nat) : EpochTrace :=
  (List.range num_batches).foldl (epoch_step num_batches grad_accum)
    { laion_batches_consumed := 0, pile_batches_consumed := 0, forward_passes := 0
      optimizer_steps := 0, scheduler_steps := 0, zero_grad_calls := 0 }

/-- Python truthiness of the `mapping_matrix_path` argument: `None` and the
empty string are falsy, any other string is truthy. -/
def truthy_path : Option String → Bool
  | none => false
  | some s => decide (s ≠ "")

/-- Embedding of the control flow of `train_one_epoch`: the two `assert`
statements run first, in source order, and only if both pass does the
training loop produce any trace event.  Loader iteration, forward passes
and optimizer mutation happen only inside the loop, so an
`Except.error` result means none of them occurred. -/
def train_one_epoch (num_batches_laion num_batches_pile : Nat)
    (use_text_to_image_mapping : Bool) (mapping_matrix_path : Option String)
    (gradient_accumulation_steps : Nat) : Except String EpochTrace :=
  if num_batches_laion ≠ num_batches_pile then
    Except.error "Number of batches in laion and pile datasets must be the same"
  else if use_text_to_image_mapping && !truthy_path mapping_matrix_path then
    Except.error "mapping_matrix_path must be provided if use_text_to_image_mapping is True"
  else
    Except.ok (run_epoch_loop num_batches_laion gradient_accumulation_steps)

/-- A model, for `get_checkpoint`: named parameters each carry a tensor
value and a `requires_grad` flag; buffers carry only a tensor value.
`state_dict()` contains both kinds of entries, `named_parameters()` only
the parameters. -/
structure PyModel where
  params : List (String × Int × Bool)
  buffers : List (String × Int)

/-- `model.state_dict()`: name-to-tensor entries for parameters and
buffers. -/
def state_dict (m : PyModel) : List (String × Int) :=
  m.params.map (fun p => (p.1, p.2.1)) ++ m.buffers

/-- `model.named_parameters()`: name and `requires_grad` flag of every
parameter. -/
def named_parameters (m : PyModel) : List (String × Bool) :=
  m.params.map (fun p => (p.1, p.2.2))

/-- Embedding of `get_checkpoint` from `train_utils.py`: take
`model.state_dict()` and delete the entry of every named parameter whose
`requires_grad` is false. -/
def get_checkpoint (m : PyModel) : List (String × Int) :=
  (named_parameters m).foldl
    (fun sd np => if np.2 then sd else sd.filter (fun e => decide (e.1 ≠ np.1)))
    (state_dict m)

/-- Names of the frozen (`requires_grad = false`) parameters, the keys that
`get_checkpoint`'s loop deletes. -/
def frozen_names (l : List (String × Bool)) : List String :=
  (l.filter (fun np => !np.2)).map (fun np => np.1)

/-- A concrete two-parameter, one-buffer model used to instantiate the
`get_checkpoint` theorems. -/
def demo_model : PyModel :=
  { params := [("a", 1, true), ("b", 2, false)], buffers := [("buf", 7)] }

@[simp] theorem neg_hundred_ne_cast (m : Nat) : (-100 : Int) ≠ (m : Int) := by
  omega

@[simp] theorem cast_ne_neg_hundred (m : Nat) : (m : Int) ≠ (-100 : Int) := by
  omega

theorem mask_value_getElem (v : Int) (l : List Int) (j : Nat) :
    (mask_value v l)[j]? = (l[j]?).map (fun x => if x = v then -100 else x) := by
  rw [mask_value]
  exact List.getElem?_map _ _ _

theorem mask_first_getElem (l : List Int) (j : Nat) :
    (mask_first l)[j]? = if j = 0 then (l[0]?).map (fun _ => (-100 : Int)) else l[j]? := by
  cases l with
  | nil => cases j <;> simp [mask_first]
  | cons x xs => cases j <;> simp [mask_first]

theorem clone_ids_getElem (row : List Nat) (j : Nat) :
    (clone_ids row)[j]? = (row[j]?).map (fun (a : Nat) => (a : Int)) := by
  rw [clone_ids]
  exact List.getElem?_map _ _ _

theorem first_occ_cons (v a : Nat) (xs : List Nat) :
    first_occ v (a :: xs) = if a = v then 0 else first_occ v xs + 1 := rfl

theorem first_occ_int_cons (v x : Int) (l : List Int) :
    first_occ_int v (x :: l) = if x = v then 0 else first_occ_int v l + 1 := rfl

theorem mask_clone_cons (pad a : Nat) (xs : List Nat) :
    mask_value (pad : Int) (clone_ids (a :: xs)) =
      (if a = pad then (-100 : Int) else (a : Int)) :: mask_value (pad : Int) (clone_ids xs) := by
  simp only [mask_value, clone_ids, List.map_cons, Nat.cast_inj]

theorem pre_scan_labels_getElem (pad : Nat) (row : List Nat) (j : Nat) :
    (pre_scan_labels pad row)[j]? =
      (row[j]?).map (fun a => if j = 0 ∨ a = pad then (-100 : Int) else (a : Int)) := by
  rw [pre_scan_labels, mask_first_getElem]
  by_cases hj : j = 0
  · rw [if_pos hj, mask_value_getElem, clone_ids_getElem]
    subst hj
    cases row[0]? <;> simp
  · rw [if_neg hj, mask_value_getElem, clone_ids_getElem]
    cases hrow : row[j]? with
    | none => simp
    | some a =>
      by_cases hp : a = pad <;> simp [hj, hp]

theorem laion_labels_getElem (pad media : Nat) (row : List Nat) (j : Nat) :
    (laion_labels pad media row)[j]? =
      (row[j]?).map (fun a =>
        if a = pad ∨ j = 0 ∨ a = media then (-100 : Int) else (a : Int)) := by
  rw [laion_labels, mask_value_getElem, pre_scan_labels_getElem]
  cases hrow : row[j]? with
  | none => simp
  | some a =>
    by_cases h0 : j = 0 <;> by_cases hp : a = pad <;> by_cases hm : a = media <;>
      simp [h0, hp, hm]

theorem pre_media_scan_getElem (v : Int) (l : List Int) (j : Nat) :
    (pre_media_scan v l)[j]? =
      if j < first_occ_int v l then (l[j]?).map (fun _ => (-100 : Int)) else l[j]? := by
  induction l generalizing j with
  | nil => simp [pre_media_scan, first_occ_int]
  | cons x xs ih =>
    by_cases hx : x = v
    · simp [pre_media_scan, first_occ_int, hx]
    · cases j with
      | zero => simp [pre_media_scan, first_occ_int, hx]
      | succ k =>
        simp [pre_media_scan, first_occ_int, hx, ih k, Nat.succ_lt_succ_iff]

theorem pile_labels_getElem (pad media : Nat) (row : List Nat) (j : Nat) :
    (pile_labels pad media row)[j]? =
      (row[j]?).map (fun a =>
        if j < first_occ_int (media : Int) (pre_scan_labels pad row) ∨
            a = pad ∨ j = 0 ∨ a = media
        then (-100 : Int) else (a : Int)) := by
  rw [pile_labels, mask_value_getElem, pre_media_scan_getElem]
  by_cases hscan : j < first_occ_int (media : Int) (pre_scan_labels pad row)
  · rw [if_pos hscan, pre_scan_labels_getElem]
    cases row[j]? <;> simp [hscan]
  · rw [if_neg hscan, pre_scan_labels_getElem]
    cases hrow : row[j]? with
    | none => simp
    | some a =>
      by_cases h0 : j = 0 <;> by_cases hp : a = pad <;> by_cases hm : a = media <;>
        simp [h0, hp, hm, hscan]

theorem first_occ_le_length (v : Nat) (l : List Nat) : first_occ v l ≤ l.length := by
  induction l with
  | nil => simp [first_occ]
  | cons a xs ih =>
    by_cases h : a = v
    · simp [first_occ, h]
    · simp only [first_occ, h, List.length_cons, ite_false]
      omega

theorem first_occ_aux_le (pad media : Nat) (xs : List Nat) :
    first_occ media xs ≤ first_occ_int (media : Int) (mask_value (pad : Int) (clone_ids xs)) := by
  induction xs with
  | nil => simp [first_occ, clone_ids, mask_value, first_occ_int]
  | cons a ys ih =>
    rw [mask_clone_cons, first_occ_int_cons, first_occ_cons]
    by_cases hm : a = media
    · rw [if_pos hm]
      exact Nat.zero_le _
    · have hhead : (if a = pad then (-100 : Int) else (a : Int)) ≠ (media : Int) := by
        by_cases hp : a = pad
        · simp [hp]
        · simp [hp, Nat.cast_inj, hm]
      rw [if_neg hm, if_neg hhead]
      omega

theorem first_occ_le_scan (pad media : Nat) (row : List Nat) :
    first_occ media row ≤ first_occ_int (media : Int) (pre_scan_labels pad row) := by
  cases row with
  | nil => simp [first_occ, pre_scan_labels, clone_ids, mask_value, mask_first, first_occ_int]
  | cons a xs =>
    have h := first_occ_aux_le pad media xs
    have hps : pre_scan_labels pad (a :: xs) =
        -100 :: mask_value (pad : Int) (clone_ids xs) := by
      rw [pre_scan_labels, mask_clone_cons]
      rfl
    rw [hps, first_occ_int_cons, if_neg (neg_hundred_ne_cast media), first_occ_cons]
    by_cases hm : a = media
    · rw [if_pos hm]
      exact Nat.zero_le _
    · rw [if_neg hm]
      omega

theorem first_occ_of_not_mem (v : Nat) (l : List Nat) (h : v ∉ l) :
    first_occ v l = l.length := by
  induction l with
  | nil => simp [first_occ]
  | cons a xs ih =>
    rw [List.mem_cons, not_or] at h
    obtain ⟨h1, h2⟩ := h
    have ha : a ≠ v := fun hh => h1 hh.symm
    simp [first_occ, ha, ih h2]

@[simp] theorem mask_value_length (v : Int) (l : List Int) :
    (mask_value v l).length = l.length := by
  simp [mask_value]

@[simp] theorem clone_ids_length (row : List Nat) :
    (clone_ids row).length = row.length := by
  simp [clone_ids]

@[simp] theorem mask_first_length (l : List Int) :
    (mask_first l).length = l.length := by
  cases l <;> simp [mask_first]

theorem pre_scan_labels_length (pad : Nat) (row : List Nat) :
    (pre_scan_labels pad row).length = row.length := by
  simp [pre_scan_labels]

theorem laion_labels_length (pad media : Nat) (row : List Nat) :
    (laion_labels pad media row).length = row.length := by
  simp [laion_labels, pre_scan_labels]

theorem first_occ_int_le_length (v : Int) (l : List Int) :
    first_occ_int v l ≤ l.length := by
  induction l with
  | nil => simp [first_occ_int]
  | cons a xs ih =>
    by_cases h : a = v
    · simp [first_occ_int_cons, h]
    · simp only [first_occ_int_cons, h, if_false, List.length_cons, ite_false]
      omega

/-- C4: for every source-A batch, the label row produced by `train_one_epoch`
is the cloned input ids of that row with a position set to the ignore sentinel
`-100` exactly when its original token equals the padding token, or it is
position 0, or its original token equals the media-placeholder token; every
other position keeps its original token id. -/
theorem laion_labels_spec (pad media : Nat) (batch : List (List Nat)) (i : Nat)
    (row : List Nat) (hrow : batch[i]? = some row) :
    (laion_labels_batch pad media batch)[i]? = some (laion_labels pad media row) ∧
    (laion_labels pad media row).length = row.length ∧
    ∀ j a, row[j]? = some a →
      (laion_labels pad media row)[j]? =
        some (if a = pad ∨ j = 0 ∨ a = media then (-100 : Int) else (a : Int)) := by
  refine ⟨?_, laion_labels_length pad media row, ?_⟩
  · rw [laion_labels_batch, List.getElem?_map, hrow]
    rfl
  · intro j a ha
    rw [laion_labels_getElem, ha]
    rfl

/-- Witness for `laion_labels_spec`: pad 0, media 9, batch `[[0, 5, 9, 3]]`. -/
theorem laion_labels_spec_witness :
    (laion_labels_batch 0 9 [[0, 5, 9, 3]])[0]? = some (laion_labels 0 9 [0, 5, 9, 3]) ∧
    (laion_labels 0 9 [0, 5, 9, 3])[2]? = some (-100) ∧
    (laion_labels 0 9 [0, 5, 9, 3])[1]? = some (5 : Int) := by
  have h := laion_labels_spec 0 9 [[0, 5, 9, 3]] 0 [0, 5, 9, 3] (by decide)
  refine ⟨h.1, ?_, ?_⟩
  · have h2 := h.2.2 2 9 (by decide)
    simpa using h2
  · have h1 := h.2.2 1 5 (by decide)
    simpa using h1

/-- C1: for every source-B batch row, in the labels built by `train_one_epoch`
every position strictly before the first media-placeholder occurrence is the
ignore sentinel, every media-placeholder position is the ignore sentinel, and
a row with no media-placeholder occurrence is entirely the ignore sentinel. -/
theorem pile_labels_spec (pad media : Nat) (batch : List (List Nat)) (i : Nat)
    (row : List Nat) (hrow : batch[i]? = some row) :
    (pile_labels_batch pad media batch)[i]? = some (pile_labels pad media row) ∧
    (∀ j, j < first_occ media row → (pile_labels pad media row)[j]? = some (-100)) ∧
    (∀ j : Nat, row[j]? = some media → (pile_labels pad media row)[j]? = some (-100)) ∧
    (media ∉ row → ∀ j, j < row.length → (pile_labels pad media row)[j]? = some (-100)) := by
  refine ⟨?_, ?_, ?_, ?_⟩
  · rw [pile_labels_batch, List.getElem?_map, hrow]
    rfl
  · intro j hj
    have hlen : j < row.length := lt_of_lt_of_le hj (first_occ_le_length media row)
    have hget := List.getElem?_eq_getElem hlen
    have hscan : j < first_occ_int (media : Int) (pre_scan_labels pad row) :=
      lt_of_lt_of_le hj (first_occ_le_scan pad media row)
    rw [pile_labels_getElem, hget]
    simp [hscan]
  · intro j ha
    rw [pile_labels_getElem, ha]
    simp
  · intro hmem j hj
    have hget := List.getElem?_eq_getElem hj
    have hjo : j < first_occ media row := by
      rw [first_occ_of_not_mem media row hmem]
      exact hj
    have hscan : j < first_occ_int (media : Int) (pre_scan_labels pad row) :=
      lt_of_lt_of_le hjo (first_occ_le_scan pad media row)
    rw [pile_labels_getElem, hget]
    simp [hscan]

/-- Witness for `pile_labels_spec`: pad 0, media 9, batch `[[7, 9, 5], [4, 5, 6]]`. -/
theorem pile_labels_spec_witness :
    (pile_labels_batch 0 9 [[7, 9, 5], [4, 5, 6]])[0]? = some (pile_labels 0 9 [7, 9, 5]) ∧
    (pile_labels 0 9 [7, 9, 5])[0]? = some (-100) ∧
    (pile_labels 0 9 [7, 9, 5])[1]? = some (-100) ∧
    (pile_labels 0 9 [4, 5, 6])[2]? = some (-100) := by
  have h0 := pile_labels_spec 0 9 [[7, 9, 5], [4, 5, 6]] 0 [7, 9, 5] (by decide)
  have h1 := pile_labels_spec 0 9 [[7, 9, 5], [4, 5, 6]] 1 [4, 5, 6] (by decide)
  exact ⟨h0.1, h0.2.1 0 (by decide), h0.2.2.1 1 (by decide),
    h1.2.2.2 (by decide) 2 (by decide)⟩

/-- C5: position 0 of every nonempty label row of either source holds the
ignore sentinel. -/
theorem labels_first_position_spec (pad media : Nat) (row : List Nat) (hne : row ≠ []) :
    (laion_labels pad media row)[0]? = some (-100) ∧
    (pile_labels pad media row)[0]? = some (-100) := by
  obtain ⟨a, xs, rfl⟩ := List.exists_cons_of_ne_nil hne
  constructor
  · rw [laion_labels_getElem]
    simp
  · rw [pile_labels_getElem]
    simp

/-- Witness for `labels_first_position_spec`: pad 0, media 9, row `[3, 4]`. -/
theorem labels_first_position_spec_witness :
    (laion_labels 0 9 [3, 4])[0]? = some (-100) ∧
    (pile_labels 0 9 [3, 4])[0]? = some (-100) :=
  labels_first_position_spec 0 9 [3, 4] (by decide)

/-- C9: for a source-B row whose first media-placeholder occurrence is at
position 0, or whose media-placeholder id equals the padding id, the
occurrence is already the sentinel before the scan runs, so the scan masks
every position strictly before the first surviving media entry of the
pre-scan labels — the whole row when none survives (the stop index is then
the row length). -/
theorem pre_media_scan_overwritten_spec (pad media : Nat) (row : List Nat)
    (hne : row ≠ []) (hcase : row[0]? = some media ∨ media = pad) :
    (∀ j : Nat, row[j]? = some media → (j = 0 ∨ media = pad) →
      (pre_scan_labels pad row)[j]? = some (-100)) ∧
    (∀ j, j < first_occ_int (media : Int) (pre_scan_labels pad row) →
      (pre_media_scan (media : Int) (pre_scan_labels pad row))[j]? = some (-100)) ∧
    first_occ_int (media : Int) (pre_scan_labels pad row) ≤ row.length := by
  refine ⟨?_, ?_, ?_⟩
  · intro j hj hj0
    rw [pre_scan_labels_getElem, hj]
    rcases hj0 with h0 | hmp
    · simp [h0]
    · simp [hmp]
  · intro j hj
    rw [pre_media_scan_getElem, if_pos hj]
    have hjl : j < (pre_scan_labels pad row).length :=
      lt_of_lt_of_le hj (first_occ_int_le_length _ _)
    rw [List.getElem?_eq_getElem hjl]
    rfl
  · rw [← pre_scan_labels_length pad row]
    exact first_occ_int_le_length _ _

/-- Witness for `pre_media_scan_overwritten_spec`: pad 0, media 9, row
`[9, 3, 9, 4]` (first media occurrence at position 0). -/
theorem pre_media_scan_overwritten_spec_witness :
    (pre_scan_labels 0 [9, 3, 9, 4])[0]? = some (-100) ∧
    (pre_media_scan ((9 : Nat) : Int) (pre_scan_labels 0 [9, 3, 9, 4]))[1]? = some (-100) ∧
    first_occ_int ((9 : Nat) : Int) (pre_scan_labels 0 [9, 3, 9, 4]) ≤ 4 := by
  have h := pre_media_scan_overwritten_spec 0 9 [9, 3, 9, 4] (by decide) (Or.inl (by decide))
  exact ⟨h.1 0 (by decide) (Or.inl rfl), h.2.1 1 (by decide), h.2.2⟩

theorem foldl_epoch_opt (n g : Nat) : ∀ (l : List Nat) (t : EpochTrace),
    (l.foldl (epoch_step n g) t).optimizer_steps =
      t.optimizer_steps + l.countP (flush_step n g) := by
  intro l
  induction l with
  | nil => intro t; simp
  | cons s rest ih =>
    intro t
    rw [List.foldl_cons, ih, List.countP_cons]
    by_cases hf : flush_step n g s
    · simp [epoch_step, hf]
      omega
    · simp [epoch_step, hf]

theorem foldl_epoch_sched (n g : Nat) : ∀ (l : List Nat) (t : EpochTrace),
    (l.foldl (epoch_step n g) t).scheduler_steps =
      t.scheduler_steps + l.countP (flush_step n g) := by
  intro l
  induction l with
  | nil => intro t; simp
  | cons s rest ih =>
    intro t
    rw [List.foldl_cons, ih, List.countP_cons]
    by_cases hf : flush_step n g s
    · simp [epoch_step, hf]
      omega
    · simp [epoch_step, hf]

theorem foldl_epoch_zero (n g : Nat) : ∀ (l : List Nat) (t : EpochTrace),
    (l.foldl (epoch_step n g) t).zero_grad_calls =
      t.zero_grad_calls + l.countP (flush_step n g) := by
  intro l
  induction l with
  | nil => intro t; simp
  | cons s rest ih =>
    intro t
    rw [List.foldl_cons, ih, List.countP_cons]
    by_cases hf : flush_step n g s
    · simp [epoch_step, hf]
      omega
    · simp [epoch_step, hf]

theorem countP_mod (g : Nat) (hg : 0 < g) (m : Nat) :
    (List.range m).countP (fun s => (s + 1) % g == 0) = m / g := by
  induction m with
  | zero => simp
  | succ k ih =>
    rw [List.range_succ, List.countP_append, ih, Nat.succ_div]
    by_cases hd : g ∣ k + 1
    · have hm0 : (k + 1) % g = 0 := Nat.mod_eq_zero_of_dvd hd
      simp [List.countP_cons, hm0, hd]
    · have hm0 : (k + 1) % g ≠ 0 := fun hc => hd (Nat.dvd_of_mod_eq_zero hc)
      simp [List.countP_cons, beq_iff_eq, hm0, hd]

theorem countP_flush (g : Nat) (hg : 0 < g) (n : Nat) :
    (List.range n).countP (flush_step n g) = (n + g - 1) / g := by
  cases n with
  | zero =>
    have h0 : (g - 1) / g = 0 := Nat.div_eq_of_lt (by omega)
    simp [h0]
  | succ m =>
    rw [List.range_succ, List.countP_append]
    have hcong : (List.range m).countP (flush_step (m + 1) g) =
        (List.range m).countP (fun s => (s + 1) % g == 0) := by
      apply List.countP_congr
      intro s hs
      have hsm : s < m := List.mem_range.mp hs
      simp only [flush_step, Bool.or_eq_true, beq_iff_eq, Nat.add_sub_cancel]
      omega
    have hlast : List.countP (flush_step (m + 1) g) [m] = 1 := by
      simp [flush_step]
    rw [hcong, countP_mod g hg m, hlast]
    have harith : m + 1 + g - 1 = m + g := by omega
    rw [harith, Nat.add_div_right m hg]

/-- C2: when the two loaders report different batch counts, or a
text-to-image mapping is requested without a (truthy) mapping weights path,
`train_one_epoch` fails on an assertion before the loop runs: the result is
an error, so no batch is consumed, no forward pass runs and the optimizer is
never touched. -/
theorem train_one_epoch_assert_spec (nL nP : Nat) (useMap : Bool)
    (path : Option String) (ga : Nat)
    (h : nL ≠ nP ∨ (useMap = true ∧ truthy_path path = false)) :
    ∃ e, train_one_epoch nL nP useMap path ga = Except.error e := by
  rw [train_one_epoch]
  by_cases hn : nL ≠ nP
  · rw [if_pos hn]
    exact ⟨_, rfl⟩
  · rw [if_neg hn]
    rcases h with h | ⟨hm, hp⟩
    · exact absurd h hn
    · rw [hm, hp]
      exact ⟨_, rfl⟩

/-- Witness for `train_one_epoch_assert_spec`: loaders reporting 3 and 4
batches. -/
theorem train_one_epoch_assert_spec_witness :
    ∃ e, train_one_epoch 3 4 false none 1 = Except.error e :=
  train_one_epoch_assert_spec 3 4 false none 1 (Or.inl (by decide))

/-- C3: over an epoch of `n` batches with positive accumulation factor `ga`,
`train_one_epoch` reaches the loop (equal loader counts, no mapping), and the
loop performs exactly `ceil(n / ga) = (n + ga - 1) / ga` optimizer steps,
scheduler steps and zero-grad calls, because a flush happens when `(step+1)`
is a multiple of `ga` or the step is the epoch's last. -/
theorem train_one_epoch_accumulation_spec (n ga : Nat) (hga : 0 < ga) :
    train_one_epoch n n false none ga = Except.ok (run_epoch_loop n ga) ∧
    (run_epoch_loop n ga).optimizer_steps = (n + ga - 1) / ga ∧
    (run_epoch_loop n ga).scheduler_steps = (n + ga - 1) / ga ∧
    (run_epoch_loop n ga).zero_grad_calls = (n + ga - 1) / ga := by
  refine ⟨?_, ?_, ?_, ?_⟩
  · simp [train_one_epoch, truthy_path]
  · rw [run_epoch_loop, foldl_epoch_opt, countP_flush ga hga n]
    simp
  · rw [run_epoch_loop, foldl_epoch_sched, countP_flush ga hga n]
    simp
  · rw [run_epoch_loop, foldl_epoch_zero, countP_flush ga hga n]
    simp

/-- Witness for `train_one_epoch_accumulation_spec`: 5 batches, accumulation
factor 2, hence ceil(5/2) = 3 flushes. -/
theorem train_one_epoch_accumulation_spec_witness :
    train_one_epoch 5 5 false none 2 = Except.ok (run_epoch_loop 5 2) ∧
    (run_epoch_loop 5 2).optimizer_steps = 3 ∧
    (run_epoch_loop 5 2).scheduler_steps = 3 ∧
    (run_epoch_loop 5 2).zero_grad_calls = 3 := by
  have h := train_one_epoch_accumulation_spec 5 2 (by decide)
  exact ⟨h.1, h.2.1, h.2.2.1, h.2.2.2⟩

theorem get_checkpoint_eq_filter (m : PyModel) :
    get_checkpoint m =
      (state_dict m).filter
        (fun e => decide (e.1 ∉ frozen_names (named_parameters m))) := by
  rw [get_checkpoint]
  generalize state_dict m = sd
  generalize named_parameters m = l
  induction l generalizing sd with
  | nil => simp [frozen_names]
  | cons np rest ih =>
    rw [List.foldl_cons]
    by_cases hg : np.2 = true
    · rw [if_pos hg, ih]
      congr 1
      funext e
      simp [frozen_names, List.filter_cons, hg]
    · have hgf : np.2 = false := by
        cases hnp2 : np.2
        · rfl
        · exact absurd hnp2 hg
      rw [if_neg hg, ih, List.filter_filter]
      congr 1
      funext e
      by_cases h1 : e.1 = np.1 <;> by_cases h2 : e.1 ∈ frozen_names rest <;>
        simp [frozen_names, List.filter_cons, hgf, h1, h2]

theorem mem_get_checkpoint (m : PyModel) (e : String × Int) :
    e ∈ get_checkpoint m ↔
      e ∈ state_dict m ∧ e.1 ∉ frozen_names (named_parameters m) := by
  rw [get_checkpoint_eq_filter, List.mem_filter]
  simp

theorem frozen_names_sub (l : List (String × Bool)) (nm : String)
    (h : nm ∈ frozen_names l) :
    ∃ np, np ∈ l ∧ np.1 = nm ∧ np.2 = false := by
  simp only [frozen_names, List.mem_map, List.mem_filter] at h
  obtain ⟨np, ⟨hmem, hflag⟩, heq⟩ := h
  exact ⟨np, hmem, heq, by simpa using hflag⟩

theorem mem_frozen_names_of (l : List (String × Bool)) (np : String × Bool)
    (hmem : np ∈ l) (hflag : np.2 = false) : np.1 ∈ frozen_names l := by
  simp only [frozen_names, List.mem_map, List.mem_filter]
  exact ⟨np, ⟨hmem, by simp [hflag]⟩, rfl⟩

/-- C6: for any model whose state entries have pairwise distinct names,
`get_checkpoint` returns the name-to-tensor mapping with exactly the frozen
parameters removed: every parameter with `requires_grad` true is present
with its tensor, and no entry remains under the name of a parameter with
`requires_grad` false.  The embedding is a pure function of the model, so
the model itself is untouched. -/
theorem get_checkpoint_spec (m : PyModel)
    (hnodup : (m.params.map (fun p => p.1) ++ m.buffers.map (fun b => b.1)).Nodup) :
    (∀ nm v, (nm, v, true) ∈ m.params → (nm, v) ∈ get_checkpoint m) ∧
    (∀ nm v w, (nm, v, false) ∈ m.params → (nm, w) ∉ get_checkpoint m) := by
  have hpn : (m.params.map (fun p => p.1)).Nodup := hnodup.of_append_left
  constructor
  · intro nm v hp
    rw [mem_get_checkpoint]
    constructor
    · rw [state_dict]
      apply List.mem_append_left
      exact List.mem_map_of_mem _ hp
    · intro hfro
      obtain ⟨np, hnp, hname, hflag⟩ := frozen_names_sub _ _ hfro
      rw [named_parameters] at hnp
      obtain ⟨p, hpmem, hpeq⟩ := List.mem_map.mp hnp
      have hname2 : np.1 = nm := hname
      have hp1 : p.1 = nm := by rw [← hname2, ← hpeq]
      have hp2 : p.2.2 = false := by rw [← hflag, ← hpeq]
      have hpe := List.inj_on_of_nodup_map hpn hpmem hp
        (show p.1 = (nm, v, true).1 from hp1)
      rw [hpe] at hp2
      simp at hp2
  · intro nm v w hp hmem
    rw [mem_get_checkpoint] at hmem
    apply hmem.2
    have hnp : ((nm, v, false).1, (nm, v, false).2.2) ∈ named_parameters m :=
      List.mem_map_of_mem _ hp
    exact mem_frozen_names_of _ ((nm, v, false).1, (nm, v, false).2.2) hnp rfl

/-- Witness for `get_checkpoint_spec` on `demo_model`. -/
theorem get_checkpoint_spec_witness :
    ("a", (1 : Int)) ∈ get_checkpoint demo_model ∧
    ("b", (2 : Int)) ∉ get_checkpoint demo_model := by
  have h := get_checkpoint_spec demo_model (by decide)
  exact ⟨h.1 "a" 1 (by decide), h.2 "b" 2 2 (by decide)⟩

/-- C10: for any model whose state entries have pairwise distinct names,
every state entry that is not a named parameter (a buffer) appears unchanged
in `get_checkpoint`'s result, regardless of any `requires_grad` flags. -/
theorem get_checkpoint_buffers_spec (m : PyModel)
    (hnodup : (m.params.map (fun p => p.1) ++ m.buffers.map (fun b => b.1)).Nodup) :
    ∀ nm v, (nm, v) ∈ m.buffers → (nm, v) ∈ get_checkpoint m := by
  intro nm v hb
  rw [mem_get_checkpoint]
  constructor
  · rw [state_dict]
    exact List.mem_append_right _ hb
  · intro hfro
    obtain ⟨np, hnp, hname, hflag⟩ := frozen_names_sub _ _ hfro
    rw [named_parameters] at hnp
    obtain ⟨p, hpmem, hpeq⟩ := List.mem_map.mp hnp
    have hname2 : np.1 = nm := hname
    have hp1 : p.1 = nm := by rw [← hname2, ← hpeq]
    have hdisj := List.disjoint_of_nodup_append hnodup
    have h1 : nm ∈ m.params.map (fun p => p.1) := by
      rw [← hp1]
      exact List.mem_map_of_mem _ hpmem
    have h2 : nm ∈ m.buffers.map (fun b => b.1) := List.mem_map_of_mem _ hb
    exact hdisj h1 h2

/-- Witness for `get_checkpoint_buffers_spec` on `demo_model`. -/
theorem get_checkpoint_buffers_spec_witness :
    ("buf", (7 : Int)) ∈ get_checkpoint demo_model :=
  get_checkpoint_buffers_spec demo_model (by decide) "buf" 7 (by decide)

/-- C7: `get_cast_dtype` maps `"bf16"` to bfloat16, `"fp16"` to half
precision, and every other precision string to `none` (no explicit cast). -/
theorem get_cast_dtype_spec :
    get_cast_dtype "bf16" = some TorchDtype.bfloat16 ∧
    get_cast_dtype "fp16" = some TorchDtype.float16 ∧
    ∀ s : String, s ≠ "bf16" → s ≠ "fp16" → get_cast_dtype s = none := by
  refine ⟨by decide, by decide, ?_⟩
  intro s h1 h2
  rw [get_cast_dtype, if_neg h1, if_neg h2]

/-- Witness for `get_cast_dtype_spec` at the unrecognized tag `"fp32"`. -/
theorem get_cast_dtype_spec_witness : get_cast_dtype "fp32" = none :=
  get_cast_dtype_spec.2.2 "fp32" (by decide) (by decide)

/-- C8: `get_autocast` returns the cuda amp context for `"amp"`, the amp
context pinned to bfloat16 for `"amp_bfloat16"` and `"amp_bf16"`, and for
every other precision string the `suppress` context, whose entry and exit
leave the ambient precision state unchanged. -/
theorem get_autocast_spec :
    get_autocast "amp" = AutocastCtx.cudaAmp ∧
    get_autocast "amp_bfloat16" = AutocastCtx.cudaAmpBfloat16 ∧
    get_autocast "amp_bf16" = AutocastCtx.cudaAmpBfloat16 ∧
    ∀ s : String, s ≠ "amp" → s ≠ "amp_bfloat16" → s ≠ "amp_bf16" →
      get_autocast s = AutocastCtx.suppress ∧
      ∀ st : AmpState, ctx_enter (get_autocast s) st = st ∧
        ctx_exit (get_autocast s) st = st := by
  refine ⟨by decide, by decide, by decide, ?_⟩
  intro s h1 h2 h3
  have hor : ¬(s = "amp_bfloat16" ∨ s = "amp_bf16") := by
    rintro (h | h)
    · exact h2 h
    · exact h3 h
  have hs : get_autocast s = AutocastCtx.suppress := by
    rw [get_autocast, if_neg h1, if_neg hor]
  refine ⟨hs, ?_⟩
  intro st
  rw [hs]
  exact ⟨rfl, rfl⟩

/-- Witness for `get_autocast_spec` at the unrecognized tag `"fp32"`. -/
theorem get_autocast_spec_witness :
    get_autocast "fp32" = AutocastCtx.suppress ∧
    ctx_enter (get_autocast "fp32") { autocastEnabled := false, autocastDtype := none } =
      { autocastEnabled := false, autocastDtype := none } ∧
    ctx_exit (get_autocast "fp32") { autocastEnabled := false, autocastDtype := none } =
      { autocastEnabled := false, autocastDtype := none } := by
  have h := get_autocast_spec.2.2.2 "fp32" (by decide) (by decide) (by decide)
  exact ⟨h.1, (h.2 _).1, (h.2 _).2⟩
